import Mathlib

/-!
Verification of the PresentationGenerator core against its specification.

The development shallowly embeds the Python sources:
  * `src/tag_parser.py`          — `normalize_tags`, `parse_inline_tags`
  * `src/generate_presentation_universal.py`
        — `parse_content_file`, `split_questions`,
          `FlexibleLayoutEngine.analyze_sections`,
          `FlexibleLayoutEngine.calculate_section_positions`,
          `check_text_overflow`, the auto font-size block of `add_textbox`
  * `src/slide_previewer.py`     — layout branch of `create_slide_preview`

Python strings are modelled as `List Char`; regular-expression scans are
modelled by explicit index scans that reproduce the left-to-right,
non-overlapping, lazy-quantifier behaviour of the `re` module on the
concrete patterns used by the source.  All definitions use structural
(fuel-based) recursion so that concrete runs are kernel-computable.
Float arithmetic of the layout engine is modelled over `ℚ`.
-/

namespace PresGen

/-- ASCII lower-casing, as done by `re.IGNORECASE` matching of the ASCII
tag tokens used in the source. -/
def lowerChar (c : Char) : Char :=
  if 'A' ≤ c ∧ c ≤ 'Z' then Char.ofNat (c.toNat + 32) else c

/-- Python `\s` / `str.strip` whitespace class (ASCII part). -/
def isSpaceChar (c : Char) : Bool :=
  c = ' ' || c = '\t' || c = '\n' || c = '\r' || c = '\x0b' || c = '\x0c'

/-- Python `str.strip()` — remove whitespace from both ends. -/
def stripWs (s : List Char) : List Char :=
  ((s.dropWhile isSpaceChar).reverse.dropWhile isSpaceChar).reverse

/-- Python `str.rstrip()` — remove whitespace from the right end. -/
def rstripWs (s : List Char) : List Char :=
  (s.reverse.dropWhile isSpaceChar).reverse

/-- One step of collapsing whitespace runs: each maximal run of whitespace
becomes a single `' '` (the action of `re.sub(r'\s+', ' ', ·)`). -/
def collapseAux : List Char → List Char
  | [] => []
  | [c] => if isSpaceChar c then [' '] else [c]
  | c :: d :: rest =>
    if isSpaceChar c then
      if isSpaceChar d then collapseAux (d :: rest)
      else ' ' :: collapseAux (d :: rest)
    else c :: collapseAux (d :: rest)

/-- Python `re.sub(r'\s+', ' ', text.strip())` — line 26 of `tag_parser.py`. -/
def collapseWs (s : List Char) : List Char :=
  collapseAux (stripWs s)

/-- Does the (case-insensitive, ASCII) token `tok` occur at the head of `l`?
Models anchored matching of a literal token under `re.IGNORECASE`. -/
def tokAt (tok l : List Char) : Bool :=
  (l.take tok.length).map lowerChar == tok

/-- The four stylable tag names of the source. -/
inductive Tag | voc | que | ans | emp
deriving DecidableEq, Repr

/-- The lowercase tag name. -/
def tagName : Tag → List Char
  | .voc => "vocabulary".data
  | .que => "question".data
  | .ans => "answer".data
  | .emp => "emphasis".data

/-- The opening marker `[tag]`. -/
def openTok (t : Tag) : List Char := '[' :: (tagName t ++ [']'])

/-- The closing marker `[/tag]`. -/
def closeTok (t : Tag) : List Char := '[' :: '/' :: (tagName t ++ [']'])

/-- The `[step]` marker. -/
def stepTok : List Char := "[step]".data

/-- Python `re.sub(r'\[step\]\s*', '', text, flags=re.IGNORECASE)` — line 29 of
`tag_parser.py`: every `[step]` marker and the whitespace run following it
is deleted; scanning resumes after the deleted region. -/
def removeStepAux : Nat → List Char → List Char
  | 0, s => s
  | _ + 1, [] => []
  | fuel + 1, c :: rest =>
    if tokAt stepTok (c :: rest) then
      removeStepAux fuel (((c :: rest).drop stepTok.length).dropWhile isSpaceChar)
    else
      c :: removeStepAux fuel rest

def removeStep (s : List Char) : List Char :=
  removeStepAux s.length s

/-- All non-overlapping occurrences (as `(start, end)` spans) of the literal
token `tok` in `s`, scanning left to right from index `i` — the behaviour of
`re.finditer` on an `re.escape`d literal with `re.IGNORECASE`. -/
def findTokAux (tok s : List Char) : Nat → Nat → List (Nat × Nat)
  | 0, _ => []
  | fuel + 1, i =>
    if i ≥ s.length then []
    else if tokAt tok (s.drop i) then
      (i, i + tok.length) :: findTokAux tok s fuel (i + tok.length)
    else findTokAux tok s fuel (i + 1)

def findTok (tok s : List Char) : List (Nat × Nat) :=
  findTokAux tok s (s.length + 1) 0

/-- One recorded match of `\[tag\](.*?)\[/tag\]`: overall span
`[mstart, mend)`, content group span `[cstart, cend)`. -/
structure PMatch where
  tag : Tag
  mstart : Nat
  cstart : Nat
  cend : Nat
  mend : Nat
deriving DecidableEq, Repr

/-- First tag of `tags` whose opening marker occurs at index `i` of `s` —
the regex alternation `\[(vocabulary|question|answer|emphasis)\]` tries the
alternatives in order. -/
def tagOpenAt (tags : List Tag) (s : List Char) (i : Nat) : Option Tag :=
  tags.find? (fun t => tokAt (openTok t) (s.drop i))

/-- Search for the earliest closing marker of `t` at index `≥ j`, with the
lazy group `(.*?)` unable to cross a newline (no `re.DOTALL`). -/
def findCloseFrom (t : Tag) (s : List Char) : Nat → Nat → Option Nat
  | 0, _ => none
  | fuel + 1, j =>
    if j > s.length then none
    else if tokAt (closeTok t) (s.drop j) then some j
    else
      match s.get? j with
      | none => none
      | some c => if c = '\n' then none else findCloseFrom t s fuel (j + 1)

/-- All matches of `\[(t₁|…)\](.*?)\[/\1\]` (lazy, `re.IGNORECASE`) scanning
left to right, non-overlapping: at each index, if an opening marker of one
of `tags` matches and a closing marker of the same tag occurs later, record
the minimal such match and resume after it; otherwise advance one index. -/
def findPairsAux (tags : List Tag) (s : List Char) : Nat → Nat → List PMatch
  | 0, _ => []
  | fuel + 1, i =>
    if i ≥ s.length then []
    else
      match tagOpenAt tags s i with
      | some t =>
        let cs := i + (openTok t).length
        match findCloseFrom t s (s.length + 1) cs with
        | some j =>
          ⟨t, i, cs, j, j + (closeTok t).length⟩ ::
            findPairsAux tags s fuel (j + (closeTok t).length)
        | none => findPairsAux tags s fuel (i + 1)
      | none => findPairsAux tags s fuel (i + 1)

def findPairs (tags : List Tag) (s : List Char) : List PMatch :=
  findPairsAux tags s (s.length + 1) 0

/-- The `(start, end)` spans of the valid `[tag]...[/tag]` pairs of a single
tag — steps 1 and 3 of each pass of `normalize_tags`. -/
def pairSpans (t : Tag) (s : List Char) : List (Nat × Nat) :=
  (findPairs [t] s).map (fun m => (m.mstart, m.mend))

/-- Python `result[:start] + result[end:]`. -/
def removeSpan (s : List Char) (a b : Nat) : List Char :=
  s.take a ++ s.drop b

/-- Remove the listed spans from `s`, last span first (the source sorts the
orphan list in reverse before deleting, to preserve indices). -/
def removeSpans (spans : List (Nat × Nat)) (s : List Char) : List Char :=
  spans.reverse.foldl (fun acc ab => removeSpan acc ab.1 ab.2) s

/-- The index of the next markup boundary in `rest`: the first newline or
`'['`, or the length of `rest` when neither occurs — lines 70–81 of
`tag_parser.py` (`rest.index` guarded by `in`). -/
def boundary (rest : List Char) : Nat :=
  let nb := rest.length
  let nb :=
    match rest.findIdx? (fun c => c = '\n') with
    | some k => min nb k
    | none => nb
  match rest.findIdx? (fun c => c = '[') with
  | some k => if k < nb then k else nb
  | none => nb

/-- Python `result[:p] + ins + result[p:]`. -/
def insertAt (s ins : List Char) (p : Nat) : List Char :=
  s.take p ++ ins ++ s.drop p

/-- Close each unclosed opening tag: for each recorded `match.end()` position
(processed in reverse order), insert `[/tag]` at the next markup boundary. -/
def insertCloses (t : Tag) (posns : List Nat) (s : List Char) : List Char :=
  posns.reverse.foldl
    (fun acc pos => insertAt acc (closeTok t) (pos + boundary (acc.drop pos))) s

/-- One pass of the `for tag in [...]` loop of `normalize_tags`
(lines 33–82): remove orphan closing markers, then auto-close the
unmatched opening markers of tag `t`. -/
def tagPass (s : List Char) (t : Tag) : List Char :=
  let vp := pairSpans t s
  let closes := findTok (closeTok t) s
  let orphans := closes.filter (fun m => ¬ vp.any (fun p => p.1 < m.1 ∧ m.1 < p.2))
  let s1 := removeSpans orphans s
  let vp2 := pairSpans t s1
  let opens := findTok (openTok t) s1
  let unclosed :=
    (opens.filter (fun m => ¬ vp2.any (fun p => p.1 ≤ m.1 ∧ m.1 < p.2))).map (·.2)
  insertCloses t unclosed s1

/-- The tag processing order of the source. -/
def allTags : List Tag := [.voc, .que, .ans, .emp]

/-- Function `normalize_tags` of `tag_parser.py` (lines 10–84). -/
def normalizeL (s : List Char) : List Char :=
  allTags.foldl tagPass (removeStep (collapseWs s))

/-- Function `normalize_tags` on `String`. -/
def normalize_tags (s : String) : String := ⟨normalizeL s.data⟩

/-- Build the segment list from the recorded matches — the
`for match in re.finditer(...)` loop of `parse_inline_tags`
(lines 108–125): untagged gap text before each match, the content group
with its (lowercased) tag, then the tail after the last match. -/
def buildSegs (t : List Char) : List PMatch → Nat → List (List Char × Option Tag)
  | [], last => if last < t.length then [(t.drop last, none)] else []
  | m :: rest, last =>
    (if m.mstart > last then [((t.take m.mstart).drop last, none)] else []) ++
      ((t.take m.cend).drop m.cstart, some m.tag) :: buildSegs t rest m.mend

/-- Function `parse_inline_tags` of `tag_parser.py` (lines 87–131). -/
def parseInlineL (s : List Char) : List (List Char × Option Tag) :=
  let t := normalizeL s
  let segs := buildSegs t (findPairs allTags t) 0
  if segs = [] then [(t, none)] else segs

/-- Function `parse_inline_tags` on `String`. -/
def parse_inline_tags (s : String) : List (String × Option Tag) :=
  (parseInlineL s.data).map (fun p => (⟨p.1⟩, p.2))

/-! ## Slide/section parser (`parse_content_file`, lines 626–703) -/

/-- Python `str.replace(pat, rep)` — replaces every occurrence, left to right. -/
def replaceAllAux (pat rep : List Char) : Nat → List Char → List Char
  | 0, s => s
  | _ + 1, [] => []
  | fuel + 1, c :: rest =>
    if pat ≠ [] ∧ pat.isPrefixOf (c :: rest) then
      rep ++ replaceAllAux pat rep fuel ((c :: rest).drop pat.length)
    else c :: replaceAllAux pat rep fuel rest

def replaceAll (pat rep s : List Char) : List Char :=
  replaceAllAux pat rep s.length s

def isDigitChar (c : Char) : Bool := '0' ≤ c ∧ c ≤ '9'

def isUpperChar (c : Char) : Bool := 'A' ≤ c ∧ c ≤ 'Z'

/-- The lookahead `(?=\d+\.|\b[A-Z])` of `split_questions`, evaluated right
after the greedy `\s*` (where the word boundary always holds, the preceding
character being `'?'` or whitespace). -/
def splitLookahead (l : List Char) : Bool :=
  (l.takeWhile isDigitChar ≠ [] ∧ (l.dropWhile isDigitChar).head? = some '.') ||
    (match l.head? with | some c => isUpperChar c | none => false)

/-- The scan of `re.split(r'\?\s*(?=\d+\.|\b[A-Z])', text)`: a split point
is a `'?'` whose following whitespace run is followed by `digits.` or a
capital letter; the matched `'?'` and whitespace are consumed. -/
def splitQAux : Nat → List Char → List Char → List (List Char)
  | 0, s, acc => [acc.reverse ++ s]
  | _ + 1, [], acc => [acc.reverse]
  | fuel + 1, c :: rest, acc =>
    if c = '?' then
      let afterWs := rest.dropWhile isSpaceChar
      if splitLookahead afterWs then acc.reverse :: splitQAux fuel afterWs []
      else splitQAux fuel rest (c :: acc)
    else splitQAux fuel rest (c :: acc)

/-- Function `split_questions` of `generate_presentation_universal.py`
(lines 397–409). -/
def splitQuestions (text : List Char) : List (List Char) :=
  let qs := splitQAux (text.length + 1) text []
  let result := qs.filterMap (fun q =>
    let q := stripWs q
    if q ≠ [] then
      some (if q.getLast? = some '?' then q else q ++ ['?'])
    else none)
  if result ≠ [] then result else [text]

/-- The slide record built by the parser (the `current` dict). -/
structure SlideRec where
  title : List Char := []
  content : List (List Char) := []
  notes : List (List Char) := []
  left : List (List Char) := []
  right : List (List Char) := []
  left_top : List (List Char) := []
  right_top : List (List Char) := []
  left_bottom : List (List Char) := []
  right_bottom : List (List Char) := []
  template : Option (List Char) := none
deriving DecidableEq, Repr

/-- The dict keys the parser uses as section names (Python string values of
the `section` variable). -/
def keyContent : List Char := "content".data
def keyLeft : List Char := "left".data
def keyRight : List Char := "right".data
def keyLeftTop : List Char := "left_top".data
def keyRightTop : List Char := "right_top".data
def keyLeftBottom : List Char := "left_bottom".data
def keyRightBottom : List Char := "right_bottom".data
def keyNotes : List Char := "notes".data

/-- Python `current[section].append(text)` for a known section key; an unknown key
leaves the record unchanged (the source guards with `section in current`). -/
def appendToSect (cur : SlideRec) (key text : List Char) : SlideRec :=
  if key = keyContent then { cur with content := cur.content ++ [text] }
  else if key = keyLeft then { cur with left := cur.left ++ [text] }
  else if key = keyRight then { cur with right := cur.right ++ [text] }
  else if key = keyLeftTop then { cur with left_top := cur.left_top ++ [text] }
  else if key = keyRightTop then { cur with right_top := cur.right_top ++ [text] }
  else if key = keyLeftBottom then { cur with left_bottom := cur.left_bottom ++ [text] }
  else if key = keyRightBottom then { cur with right_bottom := cur.right_bottom ++ [text] }
  else if key = keyNotes then { cur with notes := cur.notes ++ [text] }
  else cur

/-- Parser state: output list, slide being built, current section. -/
structure ParseState where
  slides : List SlideRec := []
  cur : SlideRec := {}
  sect : Option (List Char) := none
deriving DecidableEq, Repr

/-- Processing of one input line of `parse_content_file` (the body of the
`for line in f` loop, lines 638–700). -/
def parseLine (st : ParseState) (rawLine : List Char) : ParseState :=
  let line := rstripWs rawLine
  if line = [] ∨ line = "---".data then st
  else if "Slide ".data.isPrefixOf line then
    if st.cur.title ≠ [] then
      { slides := st.slides ++ [st.cur], cur := {}, sect := none }
    else { st with sect := none }
  else if "Template:".data.isPrefixOf line then
    { st with cur := { st.cur with
        template := some (stripWs (replaceAll "Template:".data [] line)) } }
  else if "Title:".data.isPrefixOf line then
    { st with
      cur := { st.cur with title := stripWs (replaceAll "Title:".data [] line) },
      sect := none }
  else if "Content:".data.isPrefixOf line then
    let text := stripWs (replaceAll "Content:".data [] line)
    { st with
        sect := some keyContent,
        cur := if text ≠ [] then appendToSect st.cur keyContent text else st.cur }
  else if "Left:".data.isPrefixOf line then
    let text := stripWs (replaceAll "Left:".data [] line)
    { st with
        sect := some keyLeft,
        cur := if text ≠ [] then appendToSect st.cur keyLeft text else st.cur }
  else if "Right:".data.isPrefixOf line then
    let text := stripWs (replaceAll "Right:".data [] line)
    { st with
        sect := some keyRight,
        cur := if text ≠ [] then appendToSect st.cur keyRight text else st.cur }
  else if "LeftTop:".data.isPrefixOf line then
    let text := stripWs (replaceAll "LeftTop:".data [] line)
    { st with
        sect := some keyLeftTop,
        cur := if text ≠ [] then appendToSect st.cur keyLeftTop text else st.cur }
  else if "RightTop:".data.isPrefixOf line then
    let text := stripWs (replaceAll "RightTop:".data [] line)
    { st with
        sect := some keyRightTop,
        cur := if text ≠ [] then appendToSect st.cur keyRightTop text else st.cur }
  else if "LeftBottom:".data.isPrefixOf line then
    let text := stripWs (replaceAll "LeftBottom:".data [] line)
    if ["1.".data, "2.".data, "3.".data].any (fun q => decide (q <:+: text)) then
      { st with
          sect := some keyLeftBottom,
          cur := { st.cur with
            left_bottom := st.cur.left_bottom ++ splitQuestions text } }
    else
      { st with
          sect := some keyLeftBottom,
          cur := if text ≠ [] then appendToSect st.cur keyLeftBottom text else st.cur }
  else if "RightBottom:".data.isPrefixOf line then
    let text := stripWs (replaceAll "RightBottom:".data [] line)
    { st with
        sect := some keyRightBottom,
        cur := if text ≠ [] then appendToSect st.cur keyRightBottom text else st.cur }
  else if "Notes:".data.isPrefixOf line then
    let text := stripWs (replaceAll "Notes:".data [] line)
    { st with
        sect := some keyNotes,
        cur := if text ≠ [] then appendToSect st.cur keyNotes text else st.cur }
  else
    match st.sect with
    | some k => if line ≠ [] then { st with cur := appendToSect st.cur k line } else st
    | none => st

/-- Function `parse_content_file` on a pre-split list of lines (the file is read line
by line; each line is `rstrip`ped by the loop body). -/
def parseDoc (doc : List (List Char)) : List SlideRec :=
  let st := doc.foldl parseLine {}
  if st.cur.title ≠ [] then st.slides ++ [st.cur] else st.slides

/-! ## Layout engine (`FlexibleLayoutEngine`, lines 40–141) -/

/-- The layout section kinds produced by `analyze_sections`. -/
inductive SectKind | content | four_box | two_column | reading
deriving DecidableEq, Repr

/-- The data payload of a layout section. -/
inductive SectPayload
  | contentP (lines : List (List Char))
  | fourBoxP (lt rt lb rb : List (List Char))
  | twoColP (l r : List (List Char))
  | readingP (passage questions : List (List Char))
deriving DecidableEq, Repr

/-- One entry of the section list of `analyze_sections`. -/
structure LSection where
  kind : SectKind
  payload : SectPayload
  priority : Nat
  weight : ℚ
deriving DecidableEq, Repr

/-- Python `any([left_top, right_top, left_bottom, right_bottom])`. -/
def fourBoxAny (d : SlideRec) : Bool :=
  d.left_top ≠ [] || d.right_top ≠ [] || d.left_bottom ≠ [] || d.right_bottom ≠ []

/-- The reading-comprehension special case of `analyze_sections`. -/
def readingCond (d : SlideRec) : Bool :=
  d.left_top ≠ [] && d.left_bottom ≠ [] && d.right_top = [] && d.right_bottom = []

/-- Method `FlexibleLayoutEngine.analyze_sections` (lines 40–104). -/
def analyzeSections (d : SlideRec) : List LSection :=
  let s1 : List LSection :=
    if d.content ≠ [] then
      [⟨.content, .contentP d.content, 1, 3/10⟩]
    else []
  let s2 : List LSection :=
    if fourBoxAny d then
      [⟨.four_box, .fourBoxP d.left_top d.right_top d.left_bottom d.right_bottom, 2, 7/10⟩]
    else if d.left ≠ [] || d.right ≠ [] then
      [⟨.two_column, .twoColP d.left d.right, 2, 7/10⟩]
    else []
  let sections := s1 ++ s2
  if readingCond d then
    [⟨.reading, .readingP d.left_top d.left_bottom, 1, 1⟩]
  else sections

/-- Conversion `pptx.util.Inches`: inches to EMU (the float arithmetic is modelled
exactly over `ℚ`; `Inches(0.3)` is exactly `274320` EMU). -/
def inches (q : ℚ) : ℚ := q * 914400

/-- The inter-section gap `Inches(0.3)`. -/
def sectionGap : ℚ := inches (3/10)

/-- The position-assignment loop of `calculate_section_positions`. -/
def posGo (usable tw gap : ℚ) : List LSection → ℚ → List (LSection × ℚ × ℚ)
  | [], _ => []
  | s :: rest, top =>
    (s, top, usable * (s.weight / tw)) ::
      posGo usable tw gap rest (top + usable * (s.weight / tw) + gap)

/-- Method `FlexibleLayoutEngine.calculate_section_positions` (lines 106–141):
returns `(section, top, height)` triples. -/
def calcSectionPositions (sections : List LSection) (contentTop totalHeight : ℚ) :
    List (LSection × ℚ × ℚ) :=
  match sections with
  | [] => []
  | [s] => [(s, contentTop, totalHeight)]
  | _ =>
    let tw := (sections.map (·.weight)).sum
    let totalGap := sectionGap * ((sections.length - 1 : ℕ) : ℚ)
    let usable := totalHeight - totalGap
    posGo usable tw sectionGap sections contentTop

/-! ## Layout-kind classification: engine vs. previewer -/

/-- The four layout kinds drawable by the previewer. -/
inductive PKind | reading | four_box | two_column | single
deriving DecidableEq, Repr

/-- The main layout kind selected by `analyze_sections`: which non-content
section the engine renders (single column when only `Content`, or nothing,
is populated). -/
def engineKind (d : SlideRec) : PKind :=
  let ss := analyzeSections d
  if ss.any (fun s => s.kind = .reading) then .reading
  else if ss.any (fun s => s.kind = .four_box) then .four_box
  else if ss.any (fun s => s.kind = .two_column) then .two_column
  else .single

/-- The layout branch of `create_slide_preview`
(`slide_previewer.py`, lines 100–116). -/
def previewKind (d : SlideRec) : PKind :=
  if d.left_top ≠ [] ∧ d.left_bottom ≠ [] ∧ ¬ d.right_top ≠ [] then .reading
  else if d.left_top ≠ [] ∨ d.right_top ≠ [] ∨ d.left_bottom ≠ [] ∨ d.right_bottom ≠ [] then .four_box
  else if d.left ≠ [] ∨ d.right ≠ [] then .two_column
  else .single

/-! ## Overflow estimation and auto font-size -/

/-- Python `str.split()` with no argument: split on whitespace runs, dropping
empty pieces. -/
def splitWsAux : Nat → List Char → List (List Char)
  | 0, _ => []
  | _ + 1, [] => []
  | fuel + 1, s =>
    let s' := s.dropWhile isSpaceChar
    if s' = [] then []
    else
      s'.takeWhile (fun c => ¬ isSpaceChar c) ::
        splitWsAux fuel (s'.dropWhile (fun c => ¬ isSpaceChar c))

def splitWs (s : List Char) : List (List Char) :=
  splitWsAux (s.length + 1) s

/-- Python `int()` on a float: truncation toward zero. -/
def pyInt (q : ℚ) : ℤ := if 0 ≤ q then ⌊q⌋ else ⌈q⌉

/-- The greedy word-wrap count of `check_text_overflow` (lines 358–368):
`lines_needed` starting at 1, `current_line_length` starting at 0. -/
def wrapLoop (cpl : ℤ) : List (List Char) → ℤ → Nat → Nat
  | [], _, lines => lines
  | w :: ws, cur, lines =>
    let wl : ℤ := (w.length : ℤ) + 1
    if cur + wl > cpl then wrapLoop cpl ws wl (lines + 1)
    else wrapLoop cpl ws (cur + wl) lines

/-- Function `check_text_overflow` (lines 348–374), float arithmetic over `ℚ`.
Requires `fontSize ≠ 0` to be meaningful; see `checkTextOverflowO` for the
division-guarded version. -/
def checkTextOverflow (text : List Char) (fontSize wI hI : ℚ) : Bool × Nat × ℤ :=
  let charsPerInch := 72 / fontSize * (5/2)
  let charsPerLine := pyInt (wI * charsPerInch)
  let linesNeeded := wrapLoop charsPerLine (splitWs text) 0 1
  let lineHeight := fontSize / 72 * (13/10)
  let linesAvailable := pyInt (hI / lineHeight)
  (((linesNeeded : ℤ) > linesAvailable), linesNeeded, linesAvailable)

/-- The auto font-size block of `add_textbox`
(lines 506–514): successive caps for long text. -/
def autosize (textLength baseFontSize : Nat) : Nat :=
  let f := baseFontSize
  let f := if textLength > 300 then min f 18 else f
  let f := if textLength > 500 then min f 16 else f
  let f := if textLength > 700 then min f 14 else f
  if textLength > 1000 then min f 12 else f

/-! ## Spec-side auxiliary definitions used to state the claims -/

/-- Concatenation of the text fields of a segment list. -/
def concatSegs (segs : List (List Char × Option Tag)) : List Char :=
  (segs.map (·.1)).flatten

/-- All tag-delimiter tokens of the four stylable tags. -/
def allDelims : List (List Char) :=
  allTags.map openTok ++ allTags.map closeTok

/-- Remove every occurrence of a `[tag]` or `[/tag]` marker of the four
stylable tags (case-insensitively), keeping all other characters — the
"with all tag delimiters removed" operation of the segment round-trip
claim. -/
def removeDelimsAux : Nat → List Char → List Char
  | 0, s => s
  | _ + 1, [] => []
  | fuel + 1, c :: rest =>
    match allDelims.find? (fun tok => tokAt tok (c :: rest)) with
    | some tok => removeDelimsAux fuel ((c :: rest).drop tok.length)
    | none => c :: removeDelimsAux fuel rest

def removeDelims (s : List Char) : List Char :=
  removeDelimsAux s.length s

/-- Number of (case-insensitive, non-overlapping) occurrences of a token. -/
def countTok (tok s : List Char) : Nat :=
  (findTok tok s).length

/-! ## Concrete inputs of the claims -/

/-- Adversarial input: deleting the orphan `[/emphasis]` splices the
surrounding characters into a fresh `[/vocabulary]` token, after the
vocabulary pass has already run. -/
def advInput : List Char := "[/voca[/emphasis]bulary]".data

/-- The document of the parser-drop-rule claim. -/
def dropDoc : List (List Char) :=
  ["Content: orphan".data, "Slide 1".data, "Title: A".data]

/-- A document with content lines but no `Slide ` line. -/
def noSlideDoc : List (List Char) :=
  ["Title: A".data, "Content: x".data]

/-- A slide with Content populated together with the reading-comprehension
configuration (LeftTop and LeftBottom populated, right side empty). -/
def readingSlide : SlideRec :=
  { content := ["c".data], left_top := ["p".data], left_bottom := ["q".data] }

/-- A slide with LeftTop, LeftBottom and RightBottom populated and RightTop
empty — the configuration on which the two classifiers disagree. -/
def skewSlide : SlideRec :=
  { left_top := ["p".data], left_bottom := ["q".data], right_bottom := ["r".data] }

end PresGen

namespace PresGen

/-- Claim C1 (code bug). `normalize_tags` is not idempotent: on
`"[/voca[/emphasis]bulary]"`, removing the orphan `[/emphasis]` splices the
remaining characters into a fresh `[/vocabulary]` closing marker, which the
already-finished vocabulary pass never revisits.  The first normalization
returns `"[/vocabulary]"` — an orphan closing tag, contradicting the
function's documented behaviour ("orphan closing tags: removed") — and a
second normalization deletes it, so `normalize(normalize(s)) ≠ normalize(s)`. -/
theorem c1_idempotence_fails_at_input :
    normalizeL advInput = "[/vocabulary]".data ∧
      normalizeL (normalizeL advInput) = [] ∧
      normalizeL (normalizeL advInput) ≠ normalizeL advInput := by
  refine ⟨by decide, by decide, by decide⟩

/-- Claim C2 (code bug). The segment round-trip fails on
`"[/voca[/emphasis]bulary]"`: normalization leaves the stray closing marker
`"[/vocabulary]"` in the text, `parse_inline_tags` emits it verbatim inside
an untagged segment, while the tag-delimiter-stripped normalized text is
empty — so concatenating the segment texts does not equal the normalized
text with all tag delimiters removed. -/
theorem c2_roundtrip_fails_at_input :
    concatSegs (parseInlineL advInput) = "[/vocabulary]".data ∧
      removeDelims (normalizeL advInput) = [] ∧
      concatSegs (parseInlineL advInput) ≠ removeDelims (normalizeL advInput) := by
  refine ⟨by decide, by decide, by decide⟩

/-- Claim C3 (code bug). Closure completeness fails on
`"[/voca[/emphasis]bulary]"`: its normalization `"[/vocabulary]"` contains
one closing marker `[/vocabulary]` but no opening marker `[vocabulary]`,
contradicting the documented repair policy of `normalize_tags`. -/
theorem c3_closure_fails_at_input :
    countTok (openTok .voc) (normalizeL advInput) = 0 ∧
      countTok (closeTok .voc) (normalizeL advInput) = 1 := by
  refine ⟨by decide, by decide⟩

/-- Claim C4 counterexample. The claim — parsing
`"Content: orphan\nSlide 1\nTitle: A\n"` yields one slide with title `"A"`
and an *empty* Content section — is false: when the `Slide 1` line arrives,
the in-progress record has an empty title, so it is neither pushed *nor
reset*, and the pre-slide `"orphan"` content is carried into the slide that
is finally emitted. -/
theorem c4_counterexample :
    ¬ ((parseDoc dropDoc).length = 1 ∧
        ∀ s ∈ parseDoc dropDoc, s.title = "A".data ∧ s.content = []) := by
  decide

/-- Claim C4 amended: parsing `"Content: orphan\nSlide 1\nTitle: A\n"` yields
exactly one slide, with title `"A"` and Content `["orphan"]` — the orphan
line before the first `Slide` marker is retained, not dropped. -/
theorem c4_parse_drop_rule_amended :
    parseDoc dropDoc = [{ title := "A".data, content := ["orphan".data] }] := by
  decide

/-- Claim C5 counterexample. A document with content lines but no `Slide `
line need not parse to an empty slide list: `"Title: A\nContent: x\n"` has
no `Slide ` line, yet the end-of-input flush emits the in-progress slide
because its title is non-empty. -/
theorem c5_counterexample :
    (∀ l ∈ noSlideDoc, ¬ "Slide ".data.isPrefixOf l) ∧
      parseDoc noSlideDoc ≠ [] := by
  refine ⟨by decide, by decide⟩

/-- Claim C7 counterexample. The segmenter does not drop zero-length styled
segments: on the non-empty input `"[emphasis][/emphasis]"` it returns a
single segment with empty text and style `emphasis`. -/
theorem c7_counterexample :
    parseInlineL "[emphasis][/emphasis]".data = [([], some Tag.emp)] ∧
      "[emphasis][/emphasis]".data ≠ [] := by
  refine ⟨by decide, by decide⟩

/-- Claim C6 counterexample. The claim includes the reading case among the
layouts that combine with a non-empty Content section into two weighted
bands; but when the reading special case fires, `analyze_sections`
*replaces* the whole section list with the single full-height reading
section, discarding Content — one band, not two. -/
theorem c6_counterexample :
    readingSlide.content ≠ [] ∧ fourBoxAny readingSlide = true ∧
      readingCond readingSlide = true ∧
      (calcSectionPositions (analyzeSections readingSlide) 0 6).length ≠ 2 := by
  refine ⟨by decide, by decide, by decide, by decide⟩

/-- Claim C6 amended: for every slide whose Content section is non-empty
together with a two-column or four-box case — and which does not match the
reading special case (LeftTop and LeftBottom non-empty, RightTop and
RightBottom empty), where Content is discarded and reading takes the full
height — the layout has exactly two weighted bands: Content on top with
weight 0.3 of the gap-free height, the main layout below with weight 0.7,
separated by the fixed gap, and the two band heights plus one gap sum to
the total available height. -/
theorem c6_mixed_layout_amended (d : SlideRec) (ct H : ℚ)
    (hc : d.content ≠ [])
    (hm : fourBoxAny d = true ∨ d.left ≠ [] ∨ d.right ≠ [])
    (hr : readingCond d = false) :
    ∃ sc sm,
      analyzeSections d = [sc, sm] ∧
      sc.kind = SectKind.content ∧ sc.weight = 3/10 ∧
      (sm.kind = SectKind.four_box ∨ sm.kind = SectKind.two_column) ∧
      sm.weight = 7/10 ∧
      calcSectionPositions (analyzeSections d) ct H =
        [(sc, ct, (H - sectionGap) * (3/10)),
         (sm, ct + (H - sectionGap) * (3/10) + sectionGap,
            (H - sectionGap) * (7/10))] ∧
      (H - sectionGap) * (3/10) + sectionGap + (H - sectionGap) * (7/10) = H := by
  have hsec : ∃ sm,
      analyzeSections d = [⟨.content, .contentP d.content, 1, 3/10⟩, sm] ∧
      (sm.kind = SectKind.four_box ∨ sm.kind = SectKind.two_column) ∧
      sm.weight = 7/10 := by
    cases hfb : fourBoxAny d with
    | true =>
      refine ⟨⟨.four_box, .fourBoxP d.left_top d.right_top d.left_bottom d.right_bottom,
        2, 7/10⟩, ?_, Or.inl rfl, rfl⟩
      simp [analyzeSections, hc, hfb, hr]
    | false =>
      have hlr : (d.left ≠ [] || d.right ≠ []) = true := by
        rcases hm with hm | hm | hm
        · rw [hfb] at hm; exact absurd hm (by simp)
        · simp [hm]
        · simp [hm]
      refine ⟨⟨.two_column, .twoColP d.left d.right, 2, 7/10⟩, ?_, Or.inr rfl, rfl⟩
      simp [analyzeSections, hc, hfb, hr, hlr]
      intro h
      simpa [h] using hlr
  obtain ⟨sm, hs, hk, hw⟩ := hsec
  refine ⟨_, sm, hs, rfl, rfl, hk, hw, ?_, by ring⟩
  rw [hs]
  show posGo (H - sectionGap * ((2 - 1 : ℕ) : ℚ)) _ sectionGap _ ct = _
  simp only [List.map, List.sum_cons, List.sum_nil, hw, posGo]
  norm_num

/-- A slide with Content and Left populated — a plain mixed layout. -/
def mixSlide : SlideRec := { title := "t".data, content := ["c".data], left := ["l".data] }

/-- Claim C6 witness: the amended mixed-layout theorem applied to a concrete
Content+Left slide with `contentTop = 0` and one inch of total height. -/
theorem c6_witness :
    ∃ sc sm,
      analyzeSections mixSlide = [sc, sm] ∧
      sc.kind = SectKind.content ∧ sc.weight = 3/10 ∧
      (sm.kind = SectKind.four_box ∨ sm.kind = SectKind.two_column) ∧
      sm.weight = 7/10 ∧
      calcSectionPositions (analyzeSections mixSlide) 0 914400 =
        [(sc, 0, (914400 - sectionGap) * (3/10)),
         (sm, 0 + (914400 - sectionGap) * (3/10) + sectionGap,
            (914400 - sectionGap) * (7/10))] ∧
      (914400 - sectionGap) * (3/10) + sectionGap +
          (914400 - sectionGap) * (7/10) = (914400 : ℚ) :=
  c6_mixed_layout_amended mixSlide 0 914400 (by decide)
    (Or.inr (Or.inl (by decide))) (by decide)

/-- Spec-side definition for claim C8, following the words of the autosize
contract: the step function capping the base size at 18pt for length over
300, 16pt over 500, 14pt over 700 and 12pt over 1000 — to be compared with
the auto font-size block embedded from the source (`autosize`). -/
def autosizeSpecStep (l b : Nat) : Nat :=
  if l > 1000 then min b 12
  else if l > 700 then min b 14
  else if l > 500 then min b 16
  else if l > 300 then min b 18
  else b

/-- Claim C8 (confirmed). The auto font-size rule is a monotone step function
that never exceeds the requested base size: for lengths `l1 < l2` the size
at `l1` (base 22) is at least the size at `l2`, and for every length and
base the computed size equals the spec's step function and is at most the
base. -/
theorem c8_autosize_monotone_step :
    (∀ l1 l2 : Nat, l1 < l2 → autosize l2 22 ≤ autosize l1 22) ∧
      (∀ l b : Nat, autosize l b = autosizeSpecStep l b ∧ autosize l b ≤ b) := by
  have hstep : ∀ l b : Nat, autosize l b = autosizeSpecStep l b ∧ autosize l b ≤ b := by
    intro l b
    simp only [autosize, autosizeSpecStep]
    split_ifs <;> omega
  refine ⟨?_, hstep⟩
  intro l1 l2 h
  rw [(hstep l1 22).1, (hstep l2 22).1]
  simp only [autosizeSpecStep]
  split_ifs <;> omega

/-- Claim C8 witness: the monotonicity part applied at `100 < 400`. -/
theorem c8_witness : 100 < 400 ∧ autosize 400 22 ≤ autosize 100 22 :=
  ⟨by decide, c8_autosize_monotone_step.1 100 400 (by decide)⟩

/-- Claim C10 counterexample. On a slide with LeftTop, LeftBottom and
RightBottom populated and RightTop empty, the PowerPoint layout engine
classifies four-box (its reading special case also requires RightBottom to
be empty) while the previewer renders the reading layout (its condition
ignores RightBottom) — the two classifiers disagree. -/
theorem c10_counterexample :
    engineKind skewSlide = PKind.four_box ∧
      previewKind skewSlide = PKind.reading ∧
      engineKind skewSlide ≠ previewKind skewSlide := by
  refine ⟨by decide, by decide, by decide⟩

/-- Claim C10 amended: the PowerPoint layout engine and the preview renderer
select the same layout kind for every slide *except* those with LeftTop and
LeftBottom non-empty, RightTop empty and RightBottom non-empty (where the
engine picks four-box and the previewer reading). -/
theorem c10_kind_agreement_amended (d : SlideRec)
    (h : ¬ (d.left_top ≠ [] ∧ d.left_bottom ≠ [] ∧
            d.right_top = [] ∧ d.right_bottom ≠ [])) :
    engineKind d = previewKind d := by
  by_cases h1 : d.left_top = [] <;> by_cases h2 : d.left_bottom = [] <;>
    by_cases h3 : d.right_top = [] <;> by_cases h4 : d.right_bottom = [] <;>
    by_cases h5 : d.left = [] <;> by_cases h6 : d.right = [] <;>
    by_cases h0 : d.content = [] <;>
    simp_all [engineKind, previewKind, analyzeSections, fourBoxAny, readingCond]

/-- The slide with every section empty. -/
def emptySlide : SlideRec := {}

/-- Claim C10 witness: the agreement theorem applied to the empty slide. -/
theorem c10_witness : engineKind emptySlide = previewKind emptySlide :=
  c10_kind_agreement_amended emptySlide (by decide)

/-- Splitting a list at its trailing whitespace run. -/
lemma rstripWs_append (l : List Char) :
    rstripWs l ++ (l.reverse.takeWhile isSpaceChar).reverse = l := by
  rw [rstripWs, ← List.reverse_append, List.takeWhile_append_dropWhile,
    List.reverse_reverse]

/-- Extending a list on the right preserves a Boolean prefix test. -/
lemma isPrefixOf_append_right : ∀ (pre a b : List Char),
    pre.isPrefixOf a = true → pre.isPrefixOf (a ++ b) = true
  | [], _, _, _ => by simp [List.isPrefixOf]
  | p :: pre, [], b, h => by simp [List.isPrefixOf] at h
  | p :: pre, a :: as, b, h => by
    simp only [List.isPrefixOf, List.cons_append, Bool.and_eq_true] at h ⊢
    exact ⟨h.1, isPrefixOf_append_right pre as b h.2⟩

/-- A prefix test that fails on a raw line also fails on its `rstrip`. -/
lemma not_isPrefixOf_rstrip {pre l : List Char}
    (h : ¬ pre.isPrefixOf l = true) : ¬ pre.isPrefixOf (rstripWs l) = true := by
  intro hp
  have hext := isPrefixOf_append_right pre (rstripWs l)
    (l.reverse.takeWhile isSpaceChar).reverse hp
  rw [rstripWs_append] at hext
  exact h hext

/-- Helper `appendToSect` never touches the title. -/
lemma appendToSect_title (cur : SlideRec) (key text : List Char) :
    (appendToSect cur key text).title = cur.title := by
  unfold appendToSect
  split_ifs <;> rfl

/-- Processing one line that is not a `Title:` line preserves an empty
output list and an empty in-progress title. -/
lemma parseLine_inv (st : ParseState) (l : List Char)
    (ht : ¬ "Title:".data.isPrefixOf l)
    (h1 : st.slides = []) (h2 : st.cur.title = []) :
    (parseLine st l).slides = [] ∧ (parseLine st l).cur.title = [] := by
  have ht' : ¬ "Title:".data.isPrefixOf (rstripWs l) = true := not_isPrefixOf_rstrip ht
  unfold parseLine
  dsimp only
  by_cases c1 : rstripWs l = [] ∨ rstripWs l = "---".data
  · rw [if_pos c1]; exact ⟨h1, h2⟩
  rw [if_neg c1]
  by_cases c2 : "Slide ".data.isPrefixOf (rstripWs l) = true
  · rw [if_pos c2, if_neg (show ¬ st.cur.title ≠ [] by simp [h2])]
    exact ⟨h1, h2⟩
  rw [if_neg c2]
  by_cases c3 : "Template:".data.isPrefixOf (rstripWs l) = true
  · rw [if_pos c3]; exact ⟨h1, h2⟩
  rw [if_neg c3, if_neg ht']
  by_cases c5 : "Content:".data.isPrefixOf (rstripWs l) = true
  · rw [if_pos c5]
    refine ⟨h1, ?_⟩
    dsimp only
    by_cases t5 : stripWs (replaceAll "Content:".data [] (rstripWs l)) ≠ []
    · rw [if_pos t5, appendToSect_title]; exact h2
    · rw [if_neg t5]; exact h2
  rw [if_neg c5]
  by_cases c6 : "Left:".data.isPrefixOf (rstripWs l) = true
  · rw [if_pos c6]
    refine ⟨h1, ?_⟩
    dsimp only
    by_cases t6 : stripWs (replaceAll "Left:".data [] (rstripWs l)) ≠ []
    · rw [if_pos t6, appendToSect_title]; exact h2
    · rw [if_neg t6]; exact h2
  rw [if_neg c6]
  by_cases c7 : "Right:".data.isPrefixOf (rstripWs l) = true
  · rw [if_pos c7]
    refine ⟨h1, ?_⟩
    dsimp only
    by_cases t7 : stripWs (replaceAll "Right:".data [] (rstripWs l)) ≠ []
    · rw [if_pos t7, appendToSect_title]; exact h2
    · rw [if_neg t7]; exact h2
  rw [if_neg c7]
  by_cases c8 : "LeftTop:".data.isPrefixOf (rstripWs l) = true
  · rw [if_pos c8]
    refine ⟨h1, ?_⟩
    dsimp only
    by_cases t8 : stripWs (replaceAll "LeftTop:".data [] (rstripWs l)) ≠ []
    · rw [if_pos t8, appendToSect_title]; exact h2
    · rw [if_neg t8]; exact h2
  rw [if_neg c8]
  by_cases c9 : "RightTop:".data.isPrefixOf (rstripWs l) = true
  · rw [if_pos c9]
    refine ⟨h1, ?_⟩
    dsimp only
    by_cases t9 : stripWs (replaceAll "RightTop:".data [] (rstripWs l)) ≠ []
    · rw [if_pos t9, appendToSect_title]; exact h2
    · rw [if_neg t9]; exact h2
  rw [if_neg c9]
  by_cases c10 : "LeftBottom:".data.isPrefixOf (rstripWs l) = true
  · rw [if_pos c10]
    by_cases q10 : (["1.".data, "2.".data, "3.".data].any
        (fun q => decide (q <:+: stripWs (replaceAll "LeftBottom:".data [] (rstripWs l))))) = true
    · rw [if_pos q10]
      exact ⟨h1, h2⟩
    · rw [if_neg q10]
      refine ⟨h1, ?_⟩
      dsimp only
      by_cases t10 : stripWs (replaceAll "LeftBottom:".data [] (rstripWs l)) ≠ []
      · rw [if_pos t10, appendToSect_title]; exact h2
      · rw [if_neg t10]; exact h2
  rw [if_neg c10]
  by_cases c11 : "RightBottom:".data.isPrefixOf (rstripWs l) = true
  · rw [if_pos c11]
    refine ⟨h1, ?_⟩
    dsimp only
    by_cases t11 : stripWs (replaceAll "RightBottom:".data [] (rstripWs l)) ≠ []
    · rw [if_pos t11, appendToSect_title]; exact h2
    · rw [if_neg t11]; exact h2
  rw [if_neg c11]
  by_cases c12 : "Notes:".data.isPrefixOf (rstripWs l) = true
  · rw [if_pos c12]
    refine ⟨h1, ?_⟩
    dsimp only
    by_cases t12 : stripWs (replaceAll "Notes:".data [] (rstripWs l)) ≠ []
    · rw [if_pos t12, appendToSect_title]; exact h2
    · rw [if_neg t12]; exact h2
  rw [if_neg c12]
  cases hsec : st.sect with
  | none => exact ⟨h1, h2⟩
  | some k =>
    dsimp only
    by_cases tl : rstripWs l ≠ []
    · rw [if_pos tl]
      exact ⟨h1, by rw [appendToSect_title]; exact h2⟩
    · rw [if_neg tl]; exact ⟨h1, h2⟩

/-- The line loop of the parser keeps the state empty when no line is a
`Title:` line. -/
lemma foldl_parseLine_inv :
    ∀ (doc : List (List Char)) (st : ParseState),
      (∀ l ∈ doc, ¬ "Title:".data.isPrefixOf l) →
      st.slides = [] → st.cur.title = [] →
      (doc.foldl parseLine st).slides = [] ∧
        (doc.foldl parseLine st).cur.title = []
  | [], _, _, h1, h2 => ⟨h1, h2⟩
  | l :: ls, st, ht, h1, h2 => by
    have hstep := parseLine_inv st l (ht l (List.mem_cons_self l ls)) h1 h2
    exact foldl_parseLine_inv ls (parseLine st l)
      (fun x hx => ht x (List.mem_cons_of_mem l hx)) hstep.1 hstep.2

/-- Claim C5 amended: a document containing neither a line starting with
`"Slide "` nor a line starting with `"Title:"` parses to the empty slide
list — with no `Title:` line the in-progress slide never acquires a
non-empty title, so it is dropped both at `Slide` markers and at end of
input. -/
theorem c5_no_slide_amended (doc : List (List Char))
    (hs : ∀ l ∈ doc, ¬ "Slide ".data.isPrefixOf l)
    (ht : ∀ l ∈ doc, ¬ "Title:".data.isPrefixOf l) :
    parseDoc doc = [] := by
  have h := foldl_parseLine_inv doc {} ht rfl rfl
  unfold parseDoc
  simp [h.1, h.2]

/-- Claim C5 witness: the amended theorem applied to the one-line document
`"Content: x"`. -/
theorem c5_witness : parseDoc ["Content: x".data] = [] :=
  c5_no_slide_amended ["Content: x".data] (by decide) (by decide)

/-- Well-formedness of a match list starting at scan index `i`: matches are
in order, content spans sit inside match spans, and all spans are within
the string. -/
def MatchesOK (s : List Char) : Nat → List PMatch → Prop
  | _, [] => True
  | i, m :: rest =>
    i ≤ m.mstart ∧ m.mstart < m.cstart ∧ m.cstart ≤ m.cend ∧ m.cend < m.mend ∧
      m.mend ≤ s.length ∧ MatchesOK s m.mend rest

lemma MatchesOK_mono {s : List Char} {i j : Nat} {ms : List PMatch}
    (h : j ≤ i) (hm : MatchesOK s i ms) : MatchesOK s j ms := by
  cases ms with
  | nil => trivial
  | cons m rest =>
    exact ⟨le_trans h hm.1, hm.2.1, hm.2.2.1, hm.2.2.2.1, hm.2.2.2.2.1, hm.2.2.2.2.2⟩

/-- A successful token test at offset `j` bounds `j + tok.length` by the
string length. -/
lemma tokAt_bound {tok s : List Char} {j : Nat}
    (hne : tok ≠ []) (h : tokAt tok (s.drop j) = true) : j + tok.length ≤ s.length := by
  have he : ((s.drop j).take tok.length).map lowerChar = tok := eq_of_beq h
  have hlen := congrArg List.length he
  simp only [List.length_map, List.length_take, List.length_drop] at hlen
  have hpos : 0 < tok.length := List.length_pos.2 hne
  omega

lemma findCloseFrom_some {t : Tag} {s : List Char} :
    ∀ {fuel j k : Nat}, findCloseFrom t s fuel j = some k →
      j ≤ k ∧ tokAt (closeTok t) (s.drop k) = true
  | 0, j, k, h => by simp [findCloseFrom] at h
  | fuel + 1, j, k, h => by
    unfold findCloseFrom at h
    by_cases h1 : j > s.length
    · rw [if_pos h1] at h
      exact absurd h (by simp)
    rw [if_neg h1] at h
    by_cases h2 : tokAt (closeTok t) (s.drop j) = true
    · rw [if_pos h2] at h
      obtain rfl : j = k := by injection h
      exact ⟨le_refl _, h2⟩
    rw [if_neg h2] at h
    cases hg : s.get? j with
    | none => rw [hg] at h; exact absurd h (by simp)
    | some c =>
      rw [hg] at h
      dsimp only at h
      by_cases h3 : c = '\n'
      · rw [if_pos h3] at h
        exact absurd h (by simp)
      · rw [if_neg h3] at h
        have hrec := @findCloseFrom_some t s fuel (j + 1) k h
        exact ⟨by omega, hrec.2⟩

lemma tagOpenAt_some {tags : List Tag} {s : List Char} {i : Nat} {t : Tag}
    (h : tagOpenAt tags s i = some t) : tokAt (openTok t) (s.drop i) = true := by
  unfold tagOpenAt at h
  exact @List.find?_some Tag (fun x => tokAt (openTok x) (s.drop i)) t tags h

lemma openTok_ne_nil (t : Tag) : openTok t ≠ [] := by
  simp [openTok]

lemma closeTok_ne_nil (t : Tag) : closeTok t ≠ [] := by
  simp [closeTok]

/-- The match scan produces a well-formed match list. -/
lemma findPairsAux_ok {tags : List Tag} {s : List Char} :
    ∀ (fuel i : Nat), MatchesOK s i (findPairsAux tags s fuel i)
  | 0, _ => trivial
  | fuel + 1, i => by
    unfold findPairsAux
    split_ifs with h1
    · trivial
    cases ho : tagOpenAt tags s i with
    | none =>
      exact MatchesOK_mono (Nat.le_succ i) (findPairsAux_ok fuel (i + 1))
    | some t =>
      dsimp only
      cases hc : findCloseFrom t s (s.length + 1) (i + (openTok t).length) with
      | none =>
        exact MatchesOK_mono (Nat.le_succ i) (findPairsAux_ok fuel (i + 1))
      | some j =>
        have hcf := findCloseFrom_some hc
        have hopos : 0 < (openTok t).length := List.length_pos.2 (openTok_ne_nil t)
        have hcpos : 0 < (closeTok t).length := List.length_pos.2 (closeTok_ne_nil t)
        have hbound := tokAt_bound (closeTok_ne_nil t) hcf.2
        refine ⟨le_refl _, ?_, ?_, ?_, ?_, findPairsAux_ok fuel (j + (closeTok t).length)⟩ <;>
          dsimp only <;> omega

/-- Every untagged segment produced from a well-formed match list is
non-empty. -/
lemma buildSegs_untagged {t : List Char} :
    ∀ (ms : List PMatch) (last : Nat), MatchesOK t last ms →
      ∀ p ∈ buildSegs t ms last, p.2 = none → p.1 ≠ []
  | [], last, _, p, hp, _ => by
    unfold buildSegs at hp
    split_ifs at hp with h1
    · rcases List.mem_singleton.1 hp with rfl
      dsimp only
      intro hnil
      have hlen := congrArg List.length hnil
      rw [List.length_drop] at hlen
      simp at hlen
      omega
    · exact absurd hp (List.not_mem_nil p)
  | m :: rest, last, hok, p, hp, hsty => by
    obtain ⟨o1, o2, o3, o4, o5, o6⟩ := hok
    unfold buildSegs at hp
    rcases List.mem_append.1 hp with hpre | hrest
    · split_ifs at hpre with h1
      · rcases List.mem_singleton.1 hpre with rfl
        dsimp only
        intro hnil
        have hlen := congrArg List.length hnil
        simp only [List.length_drop, List.length_take, List.length_nil] at hlen
        omega
      · exact absurd hpre (List.not_mem_nil p)
    · rcases List.mem_cons.1 hrest with rfl | htail
      · simp at hsty
      · exact buildSegs_untagged rest m.mend o6 p htail hsty

/-- Core of the C7 amendment, stated over an arbitrary normalized text. -/
lemma segs_untagged_core (T : List Char) (p : List Char × Option Tag)
    (hp : p ∈ (if buildSegs T (findPairs allTags T) 0 = []
        then [(T, (none : Option Tag))] else buildSegs T (findPairs allTags T) 0))
    (hsty : p.2 = none) (hempty : p.1 = []) :
    T = [] ∧
      (if buildSegs T (findPairs allTags T) 0 = []
        then [(T, (none : Option Tag))] else buildSegs T (findPairs allTags T) 0) =
        [([], none)] := by
  by_cases hseg : buildSegs T (findPairs allTags T) 0 = []
  · rw [if_pos hseg] at hp ⊢
    rcases List.mem_singleton.1 hp with rfl
    dsimp only at hempty
    subst hempty
    exact ⟨rfl, rfl⟩
  · rw [if_neg hseg] at hp
    have hok : MatchesOK T 0 (findPairs allTags T) := findPairsAux_ok _ 0
    exact absurd hempty (buildSegs_untagged _ 0 hok p hp hsty)

/-- Claim C7 amended: the segmenter never emits a zero-length *untagged*
segment; an empty untagged segment can only be the single segment returned
when the normalized input is empty.  (Zero-length *styled* segments do
occur, contrary to the claim — see the counterexample.) -/
theorem c7_zero_length_amended (s : List Char) (p : List Char × Option Tag)
    (hp : p ∈ parseInlineL s) (hsty : p.2 = none) (hempty : p.1 = []) :
    normalizeL s = [] ∧ parseInlineL s = [([], none)] := by
  have hp' : p ∈ (if buildSegs (normalizeL s) (findPairs allTags (normalizeL s)) 0 = []
      then [(normalizeL s, (none : Option Tag))]
      else buildSegs (normalizeL s) (findPairs allTags (normalizeL s)) 0) := hp
  have h := segs_untagged_core (normalizeL s) p hp' hsty hempty
  exact ⟨h.1, h.2⟩

/-- Claim C7 witness: the amended theorem applied to the empty input and its
empty untagged segment. -/
theorem c7_witness :
    normalizeL ([] : List Char) = [] ∧ parseInlineL [] = [([], none)] :=
  c7_zero_length_amended [] ([], none) (by decide) rfl rfl

/-- Python `str.index(c)` — `none` models the `ValueError` Python raises when the
character is absent. -/
def indexO (c : Char) (l : List Char) : Option Nat :=
  l.findIdx? (fun x => x = c)

/-- The boundary computation of `normalize_tags` with the two `rest.index`
calls modelled as fallible operations (the source guards each with an
`in` test). -/
def boundaryO (rest : List Char) : Option Nat :=
  (if rest.contains '\n' then (indexO '\n' rest).map (fun k => min rest.length k)
   else some rest.length).bind
    (fun nb => if rest.contains '[' then
        (indexO '[' rest).map (fun k => if k < nb then k else nb)
      else some nb)

lemma findIdx?_eq_none_iff_contains (c : Char) (l : List Char) :
    l.findIdx? (fun x => x = c) = none ↔ l.contains c = false := by
  induction l with
  | nil => simp
  | cons a l ih =>
    by_cases h : a = c
    · subst h
      simp [List.findIdx?_cons, List.contains_cons]
    · simp [List.findIdx?_cons, h, List.contains_cons, Ne.symm h, ih,
        Option.map_eq_none']

/-- The guarded `index` calls never fault: `boundaryO` agrees with the
total `boundary`. -/
lemma boundaryO_eq (rest : List Char) : boundaryO rest = some (boundary rest) := by
  unfold boundaryO boundary indexO
  cases h1 : rest.findIdx? (fun x => x = '\n') with
  | none =>
    have hc1 : '\n' ∉ rest := by
      simpa using (findIdx?_eq_none_iff_contains _ _).1 h1
    cases h2 : rest.findIdx? (fun x => x = '[') with
    | none =>
      have hc2 : '[' ∉ rest := by
        simpa using (findIdx?_eq_none_iff_contains _ _).1 h2
      simp [hc1, hc2]
    | some k =>
      have hc2 : '[' ∈ rest := by
        have := eq_true_of_ne_false
          (fun hf => by rw [(findIdx?_eq_none_iff_contains _ _).2 hf] at h2; cases h2)
        simpa using this
      simp [hc1, hc2]
  | some k =>
    have hc1 : '\n' ∈ rest := by
      have := eq_true_of_ne_false
        (fun hf => by rw [(findIdx?_eq_none_iff_contains _ _).2 hf] at h1; cases h1)
      simpa using this
    cases h2 : rest.findIdx? (fun x => x = '[') with
    | none =>
      have hc2 : '[' ∉ rest := by
        simpa using (findIdx?_eq_none_iff_contains _ _).1 h2
      simp [hc1, hc2]
    | some k2 =>
      have hc2 : '[' ∈ rest := by
        have := eq_true_of_ne_false
          (fun hf => by rw [(findIdx?_eq_none_iff_contains _ _).2 hf] at h2; cases h2)
        simpa using this
      simp [hc1, hc2]

/-- Function `insertCloses` with the fallible boundary computation. -/
def insertClosesO (t : Tag) (posns : List Nat) (s : List Char) : Option (List Char) :=
  posns.reverse.foldlM
    (fun acc pos => (boundaryO (acc.drop pos)).map
      (fun b => insertAt acc (closeTok t) (pos + b))) s

lemma foldlM_insert_eq (t : Tag) :
    ∀ (l : List Nat) (s : List Char),
      l.foldlM (fun acc pos => (boundaryO (acc.drop pos)).map
          (fun b => insertAt acc (closeTok t) (pos + b))) s =
        some (l.foldl
          (fun acc pos => insertAt acc (closeTok t) (pos + boundary (acc.drop pos))) s)
  | [], s => rfl
  | pos :: l, s => by
    rw [List.foldlM_cons, boundaryO_eq]
    simpa using foldlM_insert_eq t l _

lemma insertClosesO_eq (t : Tag) (posns : List Nat) (s : List Char) :
    insertClosesO t posns s = some (insertCloses t posns s) := by
  unfold insertClosesO insertCloses
  exact foldlM_insert_eq t posns.reverse s

/-- One tag pass with fallible insertion. -/
def tagPassO (s : List Char) (t : Tag) : Option (List Char) :=
  let vp := pairSpans t s
  let closes := findTok (closeTok t) s
  let orphans := closes.filter (fun m => ¬ vp.any (fun p => p.1 < m.1 ∧ m.1 < p.2))
  let s1 := removeSpans orphans s
  let vp2 := pairSpans t s1
  let opens := findTok (openTok t) s1
  let unclosed :=
    (opens.filter (fun m => ¬ vp2.any (fun p => p.1 ≤ m.1 ∧ m.1 < p.2))).map (·.2)
  insertClosesO t unclosed s1

lemma tagPassO_eq (s : List Char) (t : Tag) : tagPassO s t = some (tagPass s t) := by
  unfold tagPassO tagPass
  exact insertClosesO_eq _ _ _

/-- Function `normalize_tags` with every Python-fallible operation threaded through
`Option`. -/
def normalizeO (s : List Char) : Option (List Char) :=
  allTags.foldlM tagPassO (removeStep (collapseWs s))

lemma foldlM_tagPass_eq : ∀ (tags : List Tag) (s : List Char),
    tags.foldlM tagPassO s = some (tags.foldl tagPass s)
  | [], s => rfl
  | t :: tags, s => by
    rw [List.foldlM_cons, tagPassO_eq]
    simpa using foldlM_tagPass_eq tags _

lemma normalizeO_eq (s : List Char) : normalizeO s = some (normalizeL s) := by
  unfold normalizeO normalizeL
  exact foldlM_tagPass_eq allTags _

/-- Function `parse_inline_tags` with the fallible normalizer. -/
def parseInlineO (s : List Char) : Option (List (List Char × Option Tag)) :=
  (normalizeO s).map (fun t =>
    let segs := buildSegs t (findPairs allTags t) 0
    if segs = [] then [(t, none)] else segs)

lemma parseInlineO_eq (s : List Char) : parseInlineO s = some (parseInlineL s) := by
  unfold parseInlineO parseInlineL
  rw [normalizeO_eq]
  rfl

/-- Division with the `ZeroDivisionError` branch made explicit. -/
def divO (a b : ℚ) : Option ℚ := if b = 0 then none else some (a / b)

/-- Function `check_text_overflow` with both divisions fallible. -/
def checkTextOverflowO (text : List Char) (fontSize wI hI : ℚ) :
    Option (Bool × Nat × ℤ) :=
  (divO 72 fontSize).bind fun d =>
    let charsPerInch := d * (5/2)
    let charsPerLine := pyInt (wI * charsPerInch)
    let linesNeeded := wrapLoop charsPerLine (splitWs text) 0 1
    let lineHeight := fontSize / 72 * (13/10)
    (divO hI lineHeight).map fun q =>
      (((linesNeeded : ℤ) > pyInt q), linesNeeded, pyInt q)

lemma checkTextOverflowO_eq (text : List Char) (fs w h : ℚ) (hfs : fs ≠ 0) :
    checkTextOverflowO text fs w h = some (checkTextOverflow text fs w h) := by
  have hlh : fs / 72 * (13/10) ≠ 0 := by
    exact mul_ne_zero (div_ne_zero hfs (by norm_num)) (by norm_num)
  unfold checkTextOverflowO checkTextOverflow divO
  rw [if_neg hfs]
  dsimp only
  rw [if_neg hlh]
  rfl


/-- The keys of the `current` dict built by `parse_content_file`. -/
def dictKeys : List (List Char) :=
  ["title".data, keyContent, keyNotes, keyLeft, keyRight, keyLeftTop,
   keyRightTop, keyLeftBottom, keyRightBottom, "template".data]

/-- Python `current[section].append(text)` guarded by `section in current`:
`none` models the fault of calling `.append` on the non-list `title` or
`template` entries; a key that is not in the dict is silently skipped, and
`section = None` fails the membership test and is skipped too. -/
def appendStepO (cur : SlideRec) (sect : Option (List Char)) (text : List Char) :
    Option SlideRec :=
  match sect with
  | none => some cur
  | some k =>
    if k ∈ dictKeys then
      if k = "title".data ∨ k = "template".data then none
      else some (appendToSect cur k text)
    else some cur

/-- The eight list-valued section keys the parser ever assigns. -/
def sectKeys : List (List Char) :=
  [keyContent, keyLeft, keyRight, keyLeftTop, keyRightTop, keyLeftBottom,
   keyRightBottom, keyNotes]

/-- Reachability invariant: the current section is unset or one of the
eight list-valued keys. -/
def SectOK (st : ParseState) : Prop :=
  st.sect = none ∨ st.sect ∈ sectKeys.map some

lemma appendStepO_keys (cur : SlideRec) {k : List Char} (hk : k ∈ sectKeys)
    (text : List Char) : appendStepO cur (some k) text = some (appendToSect cur k text) := by
  simp only [sectKeys, List.mem_cons, List.not_mem_nil, or_false] at hk
  rcases hk with rfl | rfl | rfl | rfl | rfl | rfl | rfl | rfl <;> rfl

/-- The line loop of `parse_content_file` with the dict access modelled as
a fallible operation. -/
def parseLineO (st : ParseState) (rawLine : List Char) : Option ParseState :=
  let line := rstripWs rawLine
  if line = [] ∨ line = "---".data then some st
  else if "Slide ".data.isPrefixOf line then
    if st.cur.title ≠ [] then
      some { slides := st.slides ++ [st.cur], cur := {}, sect := none }
    else some { st with sect := none }
  else if "Template:".data.isPrefixOf line then
    some { st with
             cur := { st.cur with
               template := some (stripWs (replaceAll "Template:".data [] line)) } }
  else if "Title:".data.isPrefixOf line then
    some { st with
             cur := { st.cur with title := stripWs (replaceAll "Title:".data [] line) },
             sect := none }
  else if "Content:".data.isPrefixOf line then
    let text := stripWs (replaceAll "Content:".data [] line)
    (if text ≠ [] then appendStepO st.cur (some keyContent) text else some st.cur).map
      (fun c => { st with sect := some keyContent, cur := c })
  else if "Left:".data.isPrefixOf line then
    let text := stripWs (replaceAll "Left:".data [] line)
    (if text ≠ [] then appendStepO st.cur (some keyLeft) text else some st.cur).map
      (fun c => { st with sect := some keyLeft, cur := c })
  else if "Right:".data.isPrefixOf line then
    let text := stripWs (replaceAll "Right:".data [] line)
    (if text ≠ [] then appendStepO st.cur (some keyRight) text else some st.cur).map
      (fun c => { st with sect := some keyRight, cur := c })
  else if "LeftTop:".data.isPrefixOf line then
    let text := stripWs (replaceAll "LeftTop:".data [] line)
    (if text ≠ [] then appendStepO st.cur (some keyLeftTop) text else some st.cur).map
      (fun c => { st with sect := some keyLeftTop, cur := c })
  else if "RightTop:".data.isPrefixOf line then
    let text := stripWs (replaceAll "RightTop:".data [] line)
    (if text ≠ [] then appendStepO st.cur (some keyRightTop) text else some st.cur).map
      (fun c => { st with sect := some keyRightTop, cur := c })
  else if "LeftBottom:".data.isPrefixOf line then
    let text := stripWs (replaceAll "LeftBottom:".data [] line)
    if ["1.".data, "2.".data, "3.".data].any (fun q => decide (q <:+: text)) then
      some { st with
               sect := some keyLeftBottom,
               cur := { st.cur with
                 left_bottom := st.cur.left_bottom ++ splitQuestions text } }
    else
      (if text ≠ [] then appendStepO st.cur (some keyLeftBottom) text else some st.cur).map
        (fun c => { st with sect := some keyLeftBottom, cur := c })
  else if "RightBottom:".data.isPrefixOf line then
    let text := stripWs (replaceAll "RightBottom:".data [] line)
    (if text ≠ [] then appendStepO st.cur (some keyRightBottom) text else some st.cur).map
      (fun c => { st with sect := some keyRightBottom, cur := c })
  else if "Notes:".data.isPrefixOf line then
    let text := stripWs (replaceAll "Notes:".data [] line)
    (if text ≠ [] then appendStepO st.cur (some keyNotes) text else some st.cur).map
      (fun c => { st with sect := some keyNotes, cur := c })
  else
    match st.sect with
    | some k =>
      if line ≠ [] then
        (appendStepO st.cur (some k) line).map (fun c => { st with cur := c })
      else some st
    | none => some st


/-- One parser step never hits the dict-access fault, and preserves the
section-key invariant. -/
lemma parseLineO_step (st : ParseState) (l : List Char) (hok : SectOK st) :
    parseLineO st l = some (parseLine st l) ∧ SectOK (parseLine st l) := by
  unfold parseLineO parseLine
  dsimp only
  by_cases c1 : rstripWs l = [] ∨ rstripWs l = "---".data
  · rw [if_pos c1, if_pos c1]
    exact ⟨rfl, hok⟩
  rw [if_neg c1, if_neg c1]
  by_cases c2 : "Slide ".data.isPrefixOf (rstripWs l) = true
  · rw [if_pos c2, if_pos c2]
    by_cases d2 : st.cur.title ≠ []
    · rw [if_pos d2, if_pos d2]
      exact ⟨rfl, Or.inl rfl⟩
    · rw [if_neg d2, if_neg d2]
      exact ⟨rfl, Or.inl rfl⟩
  rw [if_neg c2, if_neg c2]
  by_cases c3 : "Template:".data.isPrefixOf (rstripWs l) = true
  · rw [if_pos c3, if_pos c3]
    exact ⟨rfl, hok⟩
  rw [if_neg c3, if_neg c3]
  by_cases c4 : "Title:".data.isPrefixOf (rstripWs l) = true
  · rw [if_pos c4, if_pos c4]
    exact ⟨rfl, Or.inl rfl⟩
  rw [if_neg c4, if_neg c4]
  by_cases c5 : "Content:".data.isPrefixOf (rstripWs l) = true
  · rw [if_pos c5, if_pos c5]
    by_cases t5 : stripWs (replaceAll "Content:".data [] (rstripWs l)) ≠ []
    · rw [if_pos t5, if_pos t5]
      exact ⟨rfl, Or.inr (by simp [sectKeys])⟩
    · rw [if_neg t5, if_neg t5]
      exact ⟨rfl, Or.inr (by simp [sectKeys])⟩
  rw [if_neg c5, if_neg c5]
  by_cases c6 : "Left:".data.isPrefixOf (rstripWs l) = true
  · rw [if_pos c6, if_pos c6]
    by_cases t6 : stripWs (replaceAll "Left:".data [] (rstripWs l)) ≠ []
    · rw [if_pos t6, if_pos t6]
      exact ⟨rfl, Or.inr (by simp [sectKeys])⟩
    · rw [if_neg t6, if_neg t6]
      exact ⟨rfl, Or.inr (by simp [sectKeys])⟩
  rw [if_neg c6, if_neg c6]
  by_cases c7 : "Right:".data.isPrefixOf (rstripWs l) = true
  · rw [if_pos c7, if_pos c7]
    by_cases t7 : stripWs (replaceAll "Right:".data [] (rstripWs l)) ≠ []
    · rw [if_pos t7, if_pos t7]
      exact ⟨rfl, Or.inr (by simp [sectKeys])⟩
    · rw [if_neg t7, if_neg t7]
      exact ⟨rfl, Or.inr (by simp [sectKeys])⟩
  rw [if_neg c7, if_neg c7]
  by_cases c8 : "LeftTop:".data.isPrefixOf (rstripWs l) = true
  · rw [if_pos c8, if_pos c8]
    by_cases t8 : stripWs (replaceAll "LeftTop:".data [] (rstripWs l)) ≠ []
    · rw [if_pos t8, if_pos t8]
      exact ⟨rfl, Or.inr (by simp [sectKeys])⟩
    · rw [if_neg t8, if_neg t8]
      exact ⟨rfl, Or.inr (by simp [sectKeys])⟩
  rw [if_neg c8, if_neg c8]
  by_cases c9 : "RightTop:".data.isPrefixOf (rstripWs l) = true
  · rw [if_pos c9, if_pos c9]
    by_cases t9 : stripWs (replaceAll "RightTop:".data [] (rstripWs l)) ≠ []
    · rw [if_pos t9, if_pos t9]
      exact ⟨rfl, Or.inr (by simp [sectKeys])⟩
    · rw [if_neg t9, if_neg t9]
      exact ⟨rfl, Or.inr (by simp [sectKeys])⟩
  rw [if_neg c9, if_neg c9]
  by_cases c10 : "LeftBottom:".data.isPrefixOf (rstripWs l) = true
  · rw [if_pos c10, if_pos c10]
    by_cases q10 : (["1.".data, "2.".data, "3.".data].any
        (fun q => decide (q <:+: stripWs (replaceAll "LeftBottom:".data [] (rstripWs l))))) = true
    · rw [if_pos q10, if_pos q10]
      exact ⟨rfl, Or.inr (by simp [sectKeys])⟩
    · rw [if_neg q10, if_neg q10]
      by_cases t10 : stripWs (replaceAll "LeftBottom:".data [] (rstripWs l)) ≠ []
      · rw [if_pos t10, if_pos t10]
        exact ⟨rfl, Or.inr (by simp [sectKeys])⟩
      · rw [if_neg t10, if_neg t10]
        exact ⟨rfl, Or.inr (by simp [sectKeys])⟩
  rw [if_neg c10, if_neg c10]
  by_cases c11 : "RightBottom:".data.isPrefixOf (rstripWs l) = true
  · rw [if_pos c11, if_pos c11]
    by_cases t11 : stripWs (replaceAll "RightBottom:".data [] (rstripWs l)) ≠ []
    · rw [if_pos t11, if_pos t11]
      exact ⟨rfl, Or.inr (by simp [sectKeys])⟩
    · rw [if_neg t11, if_neg t11]
      exact ⟨rfl, Or.inr (by simp [sectKeys])⟩
  rw [if_neg c11, if_neg c11]
  by_cases c12 : "Notes:".data.isPrefixOf (rstripWs l) = true
  · rw [if_pos c12, if_pos c12]
    by_cases t12 : stripWs (replaceAll "Notes:".data [] (rstripWs l)) ≠ []
    · rw [if_pos t12, if_pos t12]
      exact ⟨rfl, Or.inr (by simp [sectKeys])⟩
    · rw [if_neg t12, if_neg t12]
      exact ⟨rfl, Or.inr (by simp [sectKeys])⟩
  rw [if_neg c12, if_neg c12]
  cases hsec : st.sect with
  | none => exact ⟨rfl, hok⟩
  | some k =>
    have hk : k ∈ sectKeys := by
      rcases hok with hnone | hmem
      · rw [hsec] at hnone; cases hnone
      · rw [hsec] at hmem
        rcases List.mem_map.1 hmem with ⟨k2, hk2, he⟩
        obtain rfl : k2 = k := by injection he
        exact hk2
    dsimp only
    by_cases tl : rstripWs l ≠ []
    · rw [if_pos tl, if_pos tl, appendStepO_keys st.cur hk]
      refine ⟨rfl, ?_⟩
      rcases hok with hnone | hmem
      · rw [hsec] at hnone; cases hnone
      · exact Or.inr (hsec ▸ hmem)
    · rw [if_neg tl, if_neg tl]
      exact ⟨rfl, hok⟩

/-- The parser loop runs without faulting. -/
lemma foldlM_parseLine_eq : ∀ (doc : List (List Char)) (st : ParseState),
    SectOK st → doc.foldlM parseLineO st = some (doc.foldl parseLine st)
  | [], _, _ => rfl
  | l :: ls, st, hok => by
    obtain ⟨h1, h2⟩ := parseLineO_step st l hok
    rw [List.foldlM_cons, h1]
    simpa using foldlM_parseLine_eq ls (parseLine st l) h2

/-- Function `parse_content_file` with every dict access fallible. -/
def parseDocO (doc : List (List Char)) : Option (List SlideRec) :=
  (doc.foldlM parseLineO {}).map
    (fun st => if st.cur.title ≠ [] then st.slides ++ [st.cur] else st.slides)

lemma parseDocO_eq (doc : List (List Char)) : parseDocO doc = some (parseDoc doc) := by
  unfold parseDocO parseDoc
  rw [foldlM_parseLine_eq doc {} (Or.inl rfl)]
  rfl


/-- Claim C9 (confirmed). Totality of the core components: with every
Python-fallible operation modelled in `Option` — the two guarded
`rest.index` calls of the normalizer, the membership-guarded
`current[section]` access of the parser, and both divisions of the
overflow estimator — normalization, segmentation and slide parsing succeed
on every string input, and overflow estimation succeeds for every string
whenever the font size is non-zero (zero would be a wrong-typed argument;
every call site passes a positive size). -/
theorem c9_totality :
    (∀ s : List Char, normalizeO s = some (normalizeL s)) ∧
      (∀ s : List Char, parseInlineO s = some (parseInlineL s)) ∧
      (∀ doc : List (List Char), parseDocO doc = some (parseDoc doc)) ∧
      (∀ (text : List Char) (fs w h : ℚ), fs ≠ 0 →
        checkTextOverflowO text fs w h = some (checkTextOverflow text fs w h)) :=
  ⟨normalizeO_eq, parseInlineO_eq, parseDocO_eq,
    fun text fs w h hfs => checkTextOverflowO_eq text fs w h hfs⟩

/-- Claim C9 witness: the overflow-estimation part applied at a concrete
text and font size, its non-zero hypothesis discharged. -/
theorem c9_witness :
    (22 : ℚ) ≠ 0 ∧
      checkTextOverflowO "hi there".data 22 5 3 =
        some (checkTextOverflow "hi there".data 22 5 3) :=
  ⟨by norm_num, c9_totality.2.2.2 "hi there".data 22 5 3 (by norm_num)⟩

end PresGen
